import Mathlib

/-!
Verification development for the `filet` terminal directory browser
(single C source file `filet.c`).

The development shallowly embeds the parts of the program the claims are
about:

* the directory-snapshot builder `read_dir` (entry filtering,
  classification via `fstatat`, and the `qsort` ordering given by
  `direlemcmp`);
* the navigation state machine of `main`'s event loop (the `sel` / `y`
  cursor bookkeeping, the redraw-time clamping of `y`, and the key
  transitions for `j k l h g G m x r . /` plus the resize-triggered
  redraw);
* the path manipulation done by the `l` (enter directory) and `h`
  (parent directory, via libc `dirname`) keys;
* the per-row deletion decisions of the `x` key;
* the shape of `redraw`'s output (empty-directory notice versus the
  window of drawn rows).

Byte strings (entry names, paths) are modelled as `List Nat`, the bytes
of the C string up to (excluding) its NUL terminator.  `size_t`
quantities are modelled as `Nat`; where unsigned wrap-around is
behaviourally relevant (the `sel - y` scroll offset handed to `redraw`)
it is made explicit with arithmetic modulo `2 ^ 64`.
-/

namespace Filet

/-- Numeric value of the byte `'.'`. -/
def dot : Nat := 46

/-- Numeric value of the byte `'/'`. -/
def slash : Nat := 47

/-- The `type` enumeration of `struct direlement` (filet.c, lines 31-37). -/
inductive EntType
  | dir        -- TYPE_DIR
  | syml       -- TYPE_SYML
  | symlToDir  -- TYPE_SYML_TO_DIR
  | exec       -- TYPE_EXEC
  | norm       -- TYPE_NORM
deriving DecidableEq

/-- `struct direlement` (filet.c, lines 30-41): classified kind, name and
the user-toggled mark bit. -/
structure DirElement where
  type : EntType
  name : List Nat
  is_selected : Bool
deriving DecidableEq

/-- The fields of `struct stat` that `read_dir` inspects: the
`S_ISDIR` / `S_ISLNK` tests on `st_mode` and the `S_IXUSR` bit. -/
structure Mode where
  isDir : Bool
  isLnk : Bool
  isExec : Bool
deriving DecidableEq

/-- One entry as enumerated by `readdir`, together with the outcomes of
the two `fstatat` calls `read_dir` may perform on it: `lstat` is the
`AT_SYMLINK_NOFOLLOW` stat (line 240), `fstat` the link-following stat
(line 261).  `none` models a failing call. -/
structure RawEntry where
  name : List Nat
  lstat : Option Mode
  fstat : Option Mode
deriving DecidableEq

/-- `strcmp` on NUL-free byte strings: only the sign of the result is
relevant, so the model returns `-1`, `0` or `1`. -/
def strcmp : List Nat → List Nat → Int
  | [], [] => 0
  | [], _ :: _ => -1
  | _ :: _, [] => 1
  | a :: as, b :: bs => if a < b then -1 else if b < a then 1 else strcmp as bs

/-- The `a_is_dir` / `b_is_dir` test of `direlemcmp` (filet.c, lines
82-83): an entry is directory-like when its type is `TYPE_DIR` or
`TYPE_SYML_TO_DIR`. -/
def isDirLikeType (t : EntType) : Bool :=
  t == EntType.dir || t == EntType.symlToDir

/-- `direlemcmp` (filet.c, lines 76-90): directory-like entries order
before all others, ties are broken by `strcmp` on the names. -/
def direlemcmp (a b : DirElement) : Int :=
  if isDirLikeType a.type != isDirLikeType b.type then
    (if isDirLikeType a.type then -1 else 1)
  else strcmp a.name b.name

/-- The total preorder induced by `direlemcmp`, used as the sorting
relation. -/
def direlemLe (a b : DirElement) : Prop := direlemcmp a b ≤ 0

instance : DecidableRel direlemLe :=
  fun a b => inferInstanceAs (Decidable (direlemcmp a b ≤ 0))

/-- Classification of one surviving entry (filet.c, lines 258-273),
given the no-follow stat result `m` and the outcome `follow` of the
second, link-following stat: `S_ISDIR` wins, then `S_ISLNK` (a symlink
is `TYPE_SYML_TO_DIR` exactly when the following stat succeeds and
yields a directory), otherwise the `S_IXUSR` bit decides executable
versus regular. -/
def classifyType (m : Mode) (follow : Option Mode) : EntType :=
  if m.isDir then EntType.dir
  else if m.isLnk then
    match follow with
    | some m2 => if m2.isDir then EntType.symlToDir else EntType.syml
    | none => EntType.syml
  else if m.isExec then EntType.exec else EntType.norm

/-- The per-entry body of `read_dir`'s `readdir` loop (filet.c, lines
226-275): skip `.` and `..`, skip dot-files unless `show_hidden`, skip
entries whose no-follow stat fails, classify the rest.  The mark bit of
a fresh entry is `false` (line 256). -/
def keepEntry (show_hidden : Bool) (r : RawEntry) : Option DirElement :=
  if r.name = [dot] ∨ r.name = [dot, dot] then none
  else if !show_hidden && r.name.head? = some dot then none
  else
    match r.lstat with
    | none => none
    | some m => some ⟨classifyType m r.fstat, r.name, false⟩

/-- `read_dir` on a directory that could be opened: filter/classify each
raw entry, then sort with `direlemcmp` (the `qsort` call at line 277).
`qsort` is an unspecified comparison sort; it is modelled by
`insertionSort`, and every property proved below depends only on the
output being a permutation of the input that is sorted with respect to
`direlemcmp` — facts shared by every comparison sort. -/
def readDirEntries (raw : List RawEntry) (show_hidden : Bool) : List DirElement :=
  List.insertionSort direlemLe (raw.filterMap (keepEntry show_hidden))

/-- `read_dir` (filet.c, lines 214-282).  `none` models a failing
`opendir`, in which case the function leaves `n = 0`: the snapshot is
empty and the call is not fatal. -/
def readDir : Option (List RawEntry) → Bool → List DirElement
  | none, _ => []
  | some raw, show_hidden => readDirEntries raw show_hidden

/-! ### Order facts about `strcmp` and `direlemcmp` -/

theorem strcmp_nil_le (y : List Nat) : strcmp [] y ≤ 0 := by
  cases y <;> simp [strcmp]

theorem strcmp_neg : ∀ x y : List Nat, strcmp x y = -strcmp y x := by
  intro x
  induction x with
  | nil => intro y; cases y <;> simp [strcmp]
  | cons a as ih =>
    intro y
    cases y with
    | nil => simp [strcmp]
    | cons b bs =>
      by_cases h1 : a < b
      · have h2 : ¬b < a := by omega
        simp [strcmp, h1, h2]
      · by_cases h2 : b < a
        · simp [strcmp, h1, h2]
        · simp [strcmp, h1, h2, ih bs]

theorem strcmp_trans :
    ∀ x y z : List Nat, strcmp x y ≤ 0 → strcmp y z ≤ 0 → strcmp x z ≤ 0 := by
  intro x
  induction x with
  | nil => intro y z _ _; exact strcmp_nil_le z
  | cons a as ih =>
    intro y z h1 h2
    cases y with
    | nil => simp [strcmp] at h1
    | cons b bs =>
      cases z with
      | nil => simp [strcmp] at h2
      | cons c cs =>
        have hab : ¬b < a := by
          intro h
          have : ¬a < b := by omega
          simp [strcmp, this, h] at h1
        by_cases hab2 : a < b
        · -- a < b ≤ c, so a < c
          have hbc : ¬c < b := by
            intro h
            have : ¬b < c := by omega
            simp [strcmp, this, h] at h2
          have hac : a < c := by omega
          simp [strcmp, hac]
        · -- a = b, reuse h2 at the tail when b = c
          have hba : a = b := by omega
          subst hba
          have h1t : strcmp as bs ≤ 0 := by simpa [strcmp, hab2, hab] using h1
          by_cases hbc : a < c
          · simp [strcmp, hbc]
          · have hcb : ¬c < a := by
              intro h
              have : ¬a < c := by omega
              simp [strcmp, this, h] at h2
            have h2t : strcmp bs cs ≤ 0 := by simpa [strcmp, hbc, hcb] using h2
            simpa [strcmp, hbc, hcb] using ih bs cs h1t h2t

theorem strcmp_eq_zero_iff : ∀ x y : List Nat, strcmp x y = 0 ↔ x = y := by
  intro x
  induction x with
  | nil => intro y; cases y <;> simp [strcmp]
  | cons a as ih =>
    intro y
    cases y with
    | nil => simp [strcmp]
    | cons b bs =>
      by_cases h1 : a < b
      · have : a ≠ b := by omega
        simp [strcmp, h1, this]
      · by_cases h2 : b < a
        · have : a ≠ b := by omega
          simp [strcmp, h1, h2, this]
        · have : a = b := by omega
          simp [strcmp, h1, h2, this, ih bs]

/-- Byte-wise lexicographic "less or equal" on names, written with
Mathlib's `List.Lex` — the order the specification's ordering invariant
speaks about. -/
def byteLexLe (x y : List Nat) : Prop := x = y ∨ List.Lex (· < ·) x y

theorem strcmp_lt_iff : ∀ x y : List Nat, strcmp x y < 0 ↔ List.Lex (· < ·) x y := by
  intro x
  induction x with
  | nil =>
    intro y
    cases y with
    | nil =>
      simp only [strcmp]
      constructor
      · intro h; omega
      · intro h; cases h
    | cons b bs =>
      simp only [strcmp]
      constructor
      · intro _; exact List.Lex.nil
      · intro _; omega
  | cons a as ih =>
    intro y
    cases y with
    | nil =>
      simp only [strcmp]
      constructor
      · intro h; omega
      · intro h; cases h
    | cons b bs =>
      by_cases h1 : a < b
      · simp only [strcmp, h1, if_true]
        constructor
        · intro _; exact List.Lex.rel h1
        · intro _; omega
      · by_cases h2 : b < a
        · simp only [strcmp, h1, if_false, h2, if_true]
          constructor
          · intro h; omega
          · intro h
            cases h with
            | rel h => omega
            | cons h => omega
        · have hab : a = b := by omega
          subst hab
          simp only [strcmp, h1, if_false, h2, if_false]
          rw [ih bs]
          constructor
          · intro h; exact List.Lex.cons h
          · intro h
            cases h with
            | rel h => omega
            | cons h => exact h

theorem strcmp_le_iff (x y : List Nat) : strcmp x y ≤ 0 ↔ byteLexLe x y := by
  constructor
  · intro h
    rcases lt_or_eq_of_le h with h | h
    · exact Or.inr ((strcmp_lt_iff x y).mp h)
    · exact Or.inl ((strcmp_eq_zero_iff x y).mp h)
  · intro h
    rcases h with h | h
    · exact le_of_eq ((strcmp_eq_zero_iff x y).mpr h)
    · exact le_of_lt ((strcmp_lt_iff x y).mpr h)

instance : IsTotal DirElement direlemLe := by
  constructor
  intro a b
  unfold direlemLe
  have h := strcmp_neg a.name b.name
  by_cases hd : isDirLikeType a.type = isDirLikeType b.type
  · unfold direlemcmp
    rw [hd]
    simp only [bne_self_eq_false, Bool.false_eq_true, if_false]
    omega
  · unfold direlemcmp
    cases ha : isDirLikeType a.type <;> cases hb : isDirLikeType b.type <;>
      simp [ha, hb] at hd ⊢

instance : IsTrans DirElement direlemLe := by
  constructor
  intro a b c hab hbc
  unfold direlemLe direlemcmp at hab hbc ⊢
  cases ha : isDirLikeType a.type <;> cases hb : isDirLikeType b.type <;>
      cases hc : isDirLikeType c.type <;>
    simp_all only [bne_self_eq_false, Bool.false_eq_true, if_false, bne, Bool.not_eq_true,
      Bool.false_eq_true, if_true, if_false]
  all_goals first
    | exact strcmp_trans _ _ _ hab hbc
    | omega
    | simp_all

/-! ### Claims C1, C2, C8 — the snapshot builder -/

/-- Claim C1: for every directory listing built by `read_dir`, the
resulting entry sequence is ordered so that all directory-like entries
(kind `Directory` or `SymlinkToDirectory`) precede all non-directory-like
entries, and within each of the two partitions names are non-decreasing
in byte-wise lexicographic order. -/
theorem C1_snapshot_ordering (raw : List RawEntry) (show_hidden : Bool)
    (i j : Nat) (ei ej : DirElement) (hij : i < j)
    (hi : (readDirEntries raw show_hidden)[i]? = some ei)
    (hj : (readDirEntries raw show_hidden)[j]? = some ej) :
    (isDirLikeType ej.type = true → isDirLikeType ei.type = true) ∧
    (isDirLikeType ei.type = isDirLikeType ej.type → byteLexLe ei.name ej.name) := by
  have hsorted : (readDirEntries raw show_hidden).Sorted direlemLe :=
    List.sorted_insertionSort direlemLe _
  rw [List.getElem?_eq_some_iff] at hi hj
  obtain ⟨hilt, hig⟩ := hi
  obtain ⟨hjlt, hjg⟩ := hj
  have hrel : direlemLe ei ej := by
    have := hsorted.rel_get_of_lt
      (a := ⟨i, hilt⟩) (b := ⟨j, hjlt⟩) (by exact hij)
    simpa [List.get_eq_getElem, hig, hjg] using this
  unfold direlemLe direlemcmp at hrel
  constructor
  · intro hdj
    by_contra hdi
    simp only [Bool.not_eq_true] at hdi
    rw [hdi, hdj] at hrel
    simp at hrel
  · intro heq
    rw [heq] at hrel
    simp only [bne_self_eq_false, Bool.false_eq_true, if_false] at hrel
    exact (strcmp_le_iff ei.name ej.name).mp hrel

/-- Concrete witness for C1: a regular file `b` and a directory `a`;
the snapshot orders the directory first although `a` is enumerated
second. -/
def c1raw : List RawEntry :=
  [⟨[98], some ⟨false, false, false⟩, none⟩,
   ⟨[97], some ⟨true, false, false⟩, none⟩]

theorem C1_snapshot_ordering_witness :
    (isDirLikeType EntType.norm = true → isDirLikeType EntType.dir = true) ∧
    (isDirLikeType EntType.dir = isDirLikeType EntType.norm →
      byteLexLe [97] [98]) :=
  C1_snapshot_ordering c1raw false 0 1
    ⟨EntType.dir, [97], false⟩ ⟨EntType.norm, [98], false⟩
    (by decide) (by decide) (by decide)

/-- Claim C2: for every path and every value of `show_hidden`, the
snapshot built by `read_dir` never contains an entry named `.` or `..`,
and an entry whose name starts with `.` appears in the snapshot if and
only if `show_hidden` is true (and the entry survives the other filters,
i.e. its name is not `.` or `..` and its no-follow stat succeeds). -/
theorem C2_hidden_filter (raw : List RawEntry) (show_hidden : Bool) :
    (∀ e ∈ readDirEntries raw show_hidden, e.name ≠ [dot] ∧ e.name ≠ [dot, dot]) ∧
    (∀ r ∈ raw, r.name.head? = some dot → r.name ≠ [dot] → r.name ≠ [dot, dot] →
      r.lstat.isSome →
      ((∃ e ∈ readDirEntries raw show_hidden, e.name = r.name) ↔ show_hidden = true)) := by
  have hmem : ∀ e : DirElement,
      e ∈ readDirEntries raw show_hidden ↔
        ∃ r ∈ raw, keepEntry show_hidden r = some e := by
    intro e
    unfold readDirEntries
    rw [List.mem_insertionSort, List.mem_filterMap]
  have hkeep : ∀ r e, keepEntry show_hidden r = some e →
      e.name = r.name ∧ r.name ≠ [dot] ∧ r.name ≠ [dot, dot] ∧
      (r.name.head? = some dot → show_hidden = true) := by
    intro r e h
    unfold keepEntry at h
    split at h
    · exact absurd h (by simp)
    · split at h
      · exact absurd h (by simp)
      · rename_i hdots hhid
        split at h
        · exact absurd h (by simp)
        · rename_i m hm
          refine ⟨by cases h; rfl, ?_, ?_, ?_⟩
          · intro hc; exact hdots (Or.inl hc)
          · intro hc; exact hdots (Or.inr hc)
          · intro hhead
            by_contra hsh
            simp only [Bool.not_eq_true] at hsh
            subst hsh
            simp [hhead] at hhid
  constructor
  · intro e he
    obtain ⟨r, _, hr⟩ := (hmem e).mp he
    obtain ⟨hn, h1, h2, _⟩ := hkeep r e hr
    exact ⟨hn ▸ h1, hn ▸ h2⟩
  · intro r hr hhead hne1 hne2 hstat
    constructor
    · intro ⟨e, he, hen⟩
      obtain ⟨r2, _, hr2⟩ := (hmem e).mp he
      obtain ⟨hn2, _, _, hdot2⟩ := hkeep r2 e hr2
      exact hdot2 (by rw [← hn2, hen]; exact hhead)
    · intro hsh
      subst hsh
      obtain ⟨m, hm⟩ := Option.isSome_iff_exists.mp hstat
      refine ⟨⟨classifyType m r.fstat, r.name, false⟩, (hmem _).mpr ⟨r, hr, ?_⟩, rfl⟩
      unfold keepEntry
      rw [hm]
      simp [hne1, hne2]

/-- Concrete witness for C2: a lone dot-file `.h` with `show_hidden = true`
appears in the snapshot. -/
def c2raw : List RawEntry := [⟨[dot, 104], some ⟨false, false, false⟩, none⟩]

theorem C2_hidden_filter_witness :
    (∃ e ∈ readDirEntries c2raw true, e.name = [dot, 104]) ↔ True := by
  have h := (C2_hidden_filter c2raw true).2 ⟨[dot, 104], some ⟨false, false, false⟩, none⟩
    (by decide) (by decide) (by decide) (by decide) (by decide)
  simpa using h

/-- Claim C8: a path that cannot be opened yields an empty snapshot
(zero entries) rather than a fatal failure, and an individual entry
whose initial no-follow stat fails is silently omitted while the rest of
the listing is produced unchanged. -/
theorem C8_error_resilience (show_hidden : Bool) (raw1 raw2 : List RawEntry)
    (r : RawEntry) (hr : r.lstat = none) :
    readDir none show_hidden = [] ∧
    readDirEntries (raw1 ++ r :: raw2) show_hidden =
      readDirEntries (raw1 ++ raw2) show_hidden := by
  refine ⟨rfl, ?_⟩
  unfold readDirEntries
  have hnone : keepEntry show_hidden r = none := by
    unfold keepEntry
    split
    · rfl
    · split
      · rfl
      · rw [hr]
  rw [List.filterMap_append, List.filterMap_append, List.filterMap_cons, hnone]

/-- Concrete witness for C8: a broken-stat entry `b` between two good
entries changes nothing, and an unopenable directory gives `[]`. -/
theorem C8_error_resilience_witness :
    readDir none false = [] ∧
    readDirEntries
      ([⟨[97], some ⟨false, false, false⟩, none⟩] ++
        (⟨[98], none, none⟩ : RawEntry) :: [⟨[99], some ⟨true, false, false⟩, none⟩])
      false =
    readDirEntries
      ([⟨[97], some ⟨false, false, false⟩, none⟩] ++ [⟨[99], some ⟨true, false, false⟩, none⟩])
      false :=
  C8_error_resilience false
    [⟨[97], some ⟨false, false, false⟩, none⟩]
    [⟨[99], some ⟨true, false, false⟩, none⟩]
    ⟨[98], none, none⟩ rfl

/-! ### Path manipulation: the `l` append and libc `dirname`

`main` mutates `path` in place: the `l`/Enter key appends `"/"` (unless
`path[1] == '\0'`, i.e. the path is the single byte `/`) and then the
entry name (filet.c, lines 656-663); the `h` key calls libc
`dirname(path)` and discards its return value (line 591). -/

/-- The new path produced by `l`/Enter on a directory-like entry
(filet.c, lines 659-662): append a separator exactly when the current
path is longer than one byte, then append the entry name. -/
def lPath (p nm : List Nat) : List Nat :=
  if 2 ≤ p.length then p ++ slash :: nm else p ++ nm

/-- Strip trailing `/` bytes. -/
def rstripSlashes (p : List Nat) : List Nat :=
  (p.reverse.dropWhile (fun b => b == slash)).reverse

/-- Drop the final path component (everything after the last `/`),
keeping that `/`. -/
def dropLastComp (p : List Nat) : List Nat :=
  (p.reverse.dropWhile (fun b => !(b == slash))).reverse

/-- Libc `dirname(3)`, modelled from its documented POSIX semantics as
it acts on the buffer (filet.c calls `dirname(path)` and ignores the
returned pointer, so a slash-free path leaves the buffer unchanged):
trailing slashes are not part of the path, the final component and then
any slashes before it are removed, and a path that reduces to nothing
becomes `/`.  (POSIX leaves the result for the path `//` implementation
defined; this model returns `/`, and `filet` never produces `//`.) -/
def dirname (p : List Nat) : List Nat :=
  if slash ∈ p then
    let q := rstripSlashes p
    if q = [] then [slash]
    else
      let r := rstripSlashes (dropLastComp q)
      if r = [] then [slash] else r
  else p

theorem dropWhile_append_all {α : Type} (pred : α → Bool) :
    ∀ l1 l2 : List α, (∀ a ∈ l1, pred a = true) →
      (l1 ++ l2).dropWhile pred = l2.dropWhile pred := by
  intro l1
  induction l1 with
  | nil => intro l2 _; rfl
  | cons a as ih =>
    intro l2 h
    have ha : pred a = true := h a (List.mem_cons_self a as)
    simp only [List.cons_append, List.dropWhile_cons, ha, if_true]
    exact ih l2 (fun b hb => h b (List.mem_cons_of_mem a hb))

theorem dropWhile_head_false {α : Type} (pred : α → Bool) (a : α) (l : List α)
    (h : pred a = false) : (a :: l).dropWhile pred = a :: l := by
  simp [List.dropWhile_cons, h]

/-- A name as it can occur inside a directory: non-empty and free of the
path separator byte. -/
def ValidName (nm : List Nat) : Prop := nm ≠ [] ∧ slash ∉ nm

/-- A canonical absolute path as `filet` maintains it: either the root
`/`, or a path of at least two bytes that starts with `/` and does not
end with `/`. -/
def CanonPath (p : List Nat) : Prop :=
  p = [slash] ∨ (p.head? = some slash ∧ p.getLast? ≠ some slash ∧ 2 ≤ p.length)

theorem rstripSlashes_of_last_ne (p : List Nat) (hne : p ≠ [])
    (hlast : p.getLast? ≠ some slash) : rstripSlashes p = p := by
  unfold rstripSlashes
  obtain ⟨a, l, hal⟩ := List.exists_cons_of_ne_nil (by
    intro h
    exact hne (by simpa using congrArg List.reverse h) : p.reverse ≠ [])
  have hhead : p.reverse.head? = some a := by rw [hal]; rfl
  rw [List.head?_reverse] at hhead
  have ha : (a == slash) = false := by
    rw [beq_eq_false_iff_ne]
    intro h
    exact hlast (h ▸ hhead)
  rw [hal, dropWhile_head_false (fun b => b == slash) a l ha, ← hal,
    List.reverse_reverse]

/-- The key round-trip fact: appending a valid name with `lPath` and
taking `dirname` restores a canonical absolute path. -/
theorem dirname_lPath (p nm : List Nat) (hp : CanonPath p) (hnm : ValidName nm) :
    dirname (lPath p nm) = p := by
  obtain ⟨hnme, hnms⟩ := hnm
  have hnmall : ∀ a ∈ nm.reverse, (!(a == slash)) = true := by
    intro a ha
    rw [List.mem_reverse] at ha
    simp only [Bool.not_eq_true', beq_eq_false_iff_ne]
    intro h
    exact hnms (h ▸ ha)
  have hnmall2 : ∀ a ∈ nm.reverse, (a == slash) = false := by
    intro a ha
    have := hnmall a ha
    simpa using this
  have hnmlast : nm.getLast? ≠ some slash := by
    intro h
    have hmem : slash ∈ nm.getLast? := by rw [h]; rfl
    obtain ⟨hne2, heq⟩ := List.mem_getLast?_eq_getLast hmem
    exact hnms (by rw [heq]; exact List.getLast_mem hne2)
  have hconsLast : ∀ a : Nat, (a :: nm).getLast? = nm.getLast? := by
    intro a
    cases nm with
    | nil => exact absurd rfl hnme
    | cons b l => rw [List.getLast?_cons_cons]
  rcases hp with hp | ⟨hphead, hplast, hplen⟩
  · -- p = "/" : lPath gives "/" ++ nm with no separator added
    subst hp
    have hlp : lPath [slash] nm = slash :: nm := by
      unfold lPath
      simp
    rw [hlp]
    unfold dirname
    rw [if_pos (List.mem_cons_self slash nm)]
    have hq : rstripSlashes (slash :: nm) = slash :: nm := by
      apply rstripSlashes_of_last_ne _ (by simp)
      intro h
      rw [hconsLast slash] at h
      exact hnmlast h
    rw [hq]
    simp only [reduceCtorEq, if_false]
    have hdrop : dropLastComp (slash :: nm) = [slash] := by
      unfold dropLastComp
      have : (slash :: nm).reverse = nm.reverse ++ [slash] := by simp
      rw [this, dropWhile_append_all _ _ _ hnmall]
      rfl
    rw [hdrop]
    have : rstripSlashes [slash] = [] := by decide
    rw [this]
    simp
  · -- long canonical p : lPath gives p ++ "/" ++ nm
    have hpe : p ≠ [] := by
      intro h
      rw [h] at hplen
      simp at hplen
    have hlp : lPath p nm = p ++ slash :: nm := by
      unfold lPath
      rw [if_pos hplen]
    rw [hlp]
    unfold dirname
    rw [if_pos (by
      apply List.mem_append_right
      exact List.mem_cons_self slash nm)]
    have hq : rstripSlashes (p ++ slash :: nm) = p ++ slash :: nm := by
      apply rstripSlashes_of_last_ne _ (by simp)
      intro h
      rw [List.getLast?_append_cons, hconsLast slash] at h
      exact hnmlast h
    rw [hq]
    have hqe : p ++ slash :: nm ≠ [] := by simp
    rw [if_neg hqe]
    have hdrop : dropLastComp (p ++ slash :: nm) = p ++ [slash] := by
      unfold dropLastComp
      have : (p ++ slash :: nm).reverse = nm.reverse ++ slash :: p.reverse := by
        simp
      rw [this, dropWhile_append_all _ _ _ hnmall]
      rw [dropWhile_head_false (fun b => !(b == slash)) slash p.reverse (by decide)]
      simp
    rw [hdrop]
    have hstrip : rstripSlashes (p ++ [slash]) = p := by
      unfold rstripSlashes
      rw [List.reverse_append]
      have : ([slash] : List Nat).reverse = [slash] := rfl
      rw [this]
      have h1 : (slash :: p.reverse).dropWhile (fun b => b == slash) =
          p.reverse.dropWhile (fun b => b == slash) := by
        simp [List.dropWhile_cons]
      rw [List.singleton_append, h1]
      have h2 : p.reverse.dropWhile (fun b => b == slash) = p.reverse := by
        obtain ⟨a, l, hal⟩ := List.exists_cons_of_ne_nil
          (by simpa using hpe : p.reverse ≠ [])
        have hhead : p.getLast? = some a := by
          rw [← List.head?_reverse, hal]; rfl
        have ha : (a == slash) = false := by
          rw [beq_eq_false_iff_ne]
          intro h
          exact hplast (h ▸ hhead)
        rw [hal, dropWhile_head_false (fun b => b == slash) a l ha]
      rw [h2, List.reverse_reverse]
    rw [hstrip, if_neg hpe]

/-- Claim C7: when `l`/Enter is pressed on a directory-like entry, the
new `current_path` is the old path, a `/` separator, and the entry name
— except that no separator is added when `current_path` is the root `/`,
so the result is `/` followed directly by the entry name. -/
theorem C7_path_append (p nm : List Nat) (hp : p.head? = some slash) :
    (p = [slash] → lPath p nm = slash :: nm) ∧
    (p ≠ [slash] → lPath p nm = p ++ slash :: nm) := by
  constructor
  · intro h
    subst h
    unfold lPath
    simp
  · intro h
    obtain ⟨t, ht⟩ : ∃ t, p = slash :: t := by
      cases p with
      | nil => simp at hp
      | cons a l =>
        refine ⟨l, ?_⟩
        simp only [List.head?_cons, Option.some.injEq] at hp
        rw [hp]
    have htne : t ≠ [] := by
      intro hte
      rw [hte] at ht
      exact h ht
    unfold lPath
    rw [if_pos]
    rw [ht]
    cases t with
    | nil => exact absurd rfl htne
    | cons b l => simp [List.length_cons]

/-- Concrete witness for C7: the root path and a two-byte path. -/
theorem C7_path_append_witness :
    (([slash] : List Nat) = [slash] → lPath [slash] [97] = slash :: [97]) ∧
    (([slash] : List Nat) ≠ [slash] → lPath [slash] [97] = [slash] ++ slash :: [97]) :=
  C7_path_append [slash] [97] (by decide)

/-! ### The navigation state machine of `main`'s event loop

State carried across loop iterations (filet.c, lines 548-552): the
current path, the `show_hidden` flag, the selection index `sel`, the
cursor offset `y` (the selected row is terminal row `y + 3`), and the
entries array with its count `n`.  The first visible entry of the
listing is at index `sel - y`, computed in `size_t` arithmetic — that
subtraction is where unsigned wrap-around is behaviourally relevant, so
it is modelled explicitly modulo `2 ^ 64`.

The machine is parametrised by the terminal row count `H` (claims are
stated for a fixed terminal size; heights below 3 make `row - 3` itself
wrap in C and are excluded by the `4 ≤ H` hypotheses of the theorems
that depend on the height).  Directory refetches are abstracted by an
environment function from (path, show_hidden) to the fresh entry list,
and the `open(path, 0)` in the `x` handler by an `openOk` flag. -/

/-- `2 ^ 64`, the modulus of `size_t` arithmetic. -/
def U64 : Nat := 18446744073709551616

/-- The per-iteration navigation state of `main`. -/
structure FullState where
  path : List Nat
  hidden : Bool
  sel : Nat
  y : Nat
  ents : List DirElement
deriving DecidableEq

/-- `row - 3`, called `scroll_size` in the redraw clamping (line 571). -/
def scrollSize (H : Nat) : Nat := H - 3

/-- The number of entry rows `redraw` can show: its loop runs while
`i - offset < row - 2` (line 380), i.e. terminal rows `3 .. row`. -/
def visibleRows (H : Nat) : Nat := H - 2

/-- The scroll offset the code passes to `redraw`: `sel - y` computed in
`size_t` (line 579).  When `y > sel` this wraps around `2 ^ 64`. -/
def scrollTop (s : FullState) : Nat :=
  (s.sel % U64 + (U64 - s.y % U64)) % U64

/-- The same quantity read as a mathematical integer (no wrap). -/
def scrollTopZ (s : FullState) : Int := (s.sel : Int) - (s.y : Int)

/-- `empty_space` of the redraw clamping (line 573):
`-(n - (sel - y + scroll_size))` in `size_t`, converted to `int`.  For
every state this model is applied to (machine states with
`y ≤ scroll_size` and counts below `2 ^ 31`) the unsigned wrap and the
`int` narrowing cancel, and the value is exactly this integer. -/
def emptySpace (H : Nat) (s : FullState) : Int :=
  (s.sel : Int) + (scrollSize H : Int) - (s.y : Int) - (s.ents.length : Int)

/-- The redraw-time clamping of `y` (filet.c, lines 571-578): `y` is
capped at `scroll_size`; otherwise, if the window would show empty space
below the last entry, `y` is moved so the listing is bottom-aligned
(when at least `scroll_size` entries exist) or so the offset becomes 0
(when fewer exist). -/
def clamp (H : Nat) (s : FullState) : FullState :=
  if scrollSize H < s.y then { s with y := scrollSize H }
  else if 0 < emptySpace H s then
    { s with y :=
        if scrollSize H ≤ s.ents.length then
          s.sel + scrollSize H + 1 - s.ents.length
        else s.sel }
  else s

/-- Environment of one loop iteration: the directory contents a refetch
would produce, and whether `open(path, 0)` in the `x` handler succeeds. -/
structure Env where
  fetchRes : List Nat → Bool → List DirElement
  openOk : Bool

/-- A refetch (`fetch_dir = true`, lines 560-566) resets `sel` and `y`
to 0, reads the directory, and is immediately followed by the clamping
redraw (`g_needs_redraw = true`). -/
def doFetch (H : Nat) (f : List Nat → Bool → List DirElement)
    (p : List Nat) (hid : Bool) : FullState :=
  clamp H { path := p, hidden := hid, sel := 0, y := 0, ents := f p hid }

/-- The logical inputs of one loop iteration: the keys the claims are
about (after arrow-key translation), plus the resize-triggered redraw
(`SIGWINCH` sets `g_needs_redraw`; the clamp then runs without a key). -/
inductive Key
  | keyJ | keyK | keyL | keyH | keyLowG | keyCapG
  | keyM | keyX | keyE | keyR | keyDot | keySlash
  | evResize
deriving DecidableEq

/-- One iteration of `main`'s loop on input `k` (filet.c, lines
589-739).  Keys `h . / r` act unconditionally; the remaining keys are
skipped entirely when the snapshot is empty (`if (n == 0) continue;`,
line 622).  `G` assigns `sel = n - 1` and `y = row - 3` in both of its
drawing branches, so they collapse to one transition; likewise `g`
assigns `sel = 0`, and additionally `y = 0` only in its full-redraw
branch (`sel - y != 0`).  The lookup `ents[sel]` is modelled with
`getElem?`; the `none` arm is unreachable because `sel < n` whenever
`n > 0`. -/
def step (H : Nat) (env : Env) (k : Key) (s : FullState) : FullState :=
  match k with
  | .keyH => doFetch H env.fetchRes (dirname s.path) s.hidden
  | .keySlash => doFetch H env.fetchRes [slash] s.hidden
  | .keyDot => doFetch H env.fetchRes s.path (!s.hidden)
  | .keyR => doFetch H env.fetchRes s.path s.hidden
  | .evResize => clamp H s
  | k2 =>
    if s.ents.length = 0 then s
    else
      match k2 with
      | .keyJ =>
        if s.sel + 1 < s.ents.length then
          { s with sel := s.sel + 1,
                   y := if s.y < scrollSize H then s.y + 1 else s.y }
        else s
      | .keyK =>
        if 0 < s.sel then { s with sel := s.sel - 1, y := s.y - 1 } else s
      | .keyL =>
        match s.ents[s.sel]? with
        | some e =>
          if isDirLikeType e.type then
            doFetch H env.fetchRes (lPath s.path e.name) s.hidden
          else doFetch H env.fetchRes s.path s.hidden
        | none => s
      | .keyLowG =>
        if s.sel = s.y then { s with sel := 0 } else { s with sel := 0, y := 0 }
      | .keyCapG => { s with sel := s.ents.length - 1, y := scrollSize H }
      | .keyM =>
        match s.ents[s.sel]? with
        | some e =>
          { s with ents := s.ents.set s.sel { e with is_selected := !e.is_selected } }
        | none => s
      | .keyE => doFetch H env.fetchRes s.path s.hidden
      | .keyX =>
        if env.openOk then doFetch H env.fetchRes s.path s.hidden else s
      | _ => s

/-- Navigation states reachable from program start: `main` begins with
`fetch_dir = true` on the starting path with `show_hidden = false`, then
consumes inputs forever.  Each step may see an arbitrary environment
(the filesystem may change between iterations). -/
inductive Reachable (H : Nat) (p0 : List Nat) : FullState → Prop
  | init (f : List Nat → Bool → List DirElement) :
      Reachable H p0 (doFetch H f p0 false)
  | next {s : FullState} (hs : Reachable H p0 s) (env : Env) (k : Key) :
      Reachable H p0 (step H env k s)

/-- The body drawn by `redraw` below the header (filet.c, lines
377-385): the reverse-video `directory empty` notice when `n == 0`,
otherwise the rows for indices `offset ≤ i < n` with `i - offset <
row - 2`, each rendered from its entry and its is-selected flag. -/
inductive RedrawBody
  | emptyNotice
  | rows (lines : List (DirElement × Bool))
deriving DecidableEq

/-- `redraw`'s listing area for entry list `ents`, selection `sel`,
scroll offset `offset` and terminal height `H`. -/
def redrawBody (ents : List DirElement) (sel offset H : Nat) : RedrawBody :=
  if ents.length = 0 then .emptyNotice
  else .rows (((ents.drop offset).take (visibleRows H)).enum.map
    (fun q => (q.2, decide (offset + q.1 = sel))))

theorem clamp_path (H : Nat) (s : FullState) : (clamp H s).path = s.path := by
  unfold clamp
  split_ifs <;> rfl

theorem clamp_sel (H : Nat) (s : FullState) : (clamp H s).sel = s.sel := by
  unfold clamp
  split_ifs <;> rfl

theorem clamp_hidden (H : Nat) (s : FullState) : (clamp H s).hidden = s.hidden := by
  unfold clamp
  split_ifs <;> rfl

theorem clamp_ents (H : Nat) (s : FullState) : (clamp H s).ents = s.ents := by
  unfold clamp
  split_ifs <;> rfl

/-- The clamping never moves `y` off `0` when both `sel` and `y` are `0`:
with `sel = y = 0` the bottom-align branch would need `n < scroll_size`
and `scroll_size ≤ n` at once. -/
theorem clamp_y_zero (H : Nat) (s : FullState) (h0 : s.sel = 0) (hy : s.y = 0) :
    (clamp H s).y = 0 := by
  unfold clamp
  split_ifs with h1 h2 h3
  · omega
  · exfalso
    unfold emptySpace at h2
    omega
  · simpa using h0
  · exact hy

theorem doFetch_path (H : Nat) (f : List Nat → Bool → List DirElement)
    (p : List Nat) (hid : Bool) : (doFetch H f p hid).path = p := by
  unfold doFetch
  rw [clamp_path]

theorem doFetch_sel (H : Nat) (f : List Nat → Bool → List DirElement)
    (p : List Nat) (hid : Bool) : (doFetch H f p hid).sel = 0 := by
  unfold doFetch
  rw [clamp_sel]

theorem doFetch_y (H : Nat) (f : List Nat → Bool → List DirElement)
    (p : List Nat) (hid : Bool) : (doFetch H f p hid).y = 0 :=
  clamp_y_zero H _ rfl rfl

theorem doFetch_hidden (H : Nat) (f : List Nat → Bool → List DirElement)
    (p : List Nat) (hid : Bool) : (doFetch H f p hid).hidden = hid := by
  unfold doFetch
  rw [clamp_hidden]

theorem scrollTop_of_zero (s : FullState) (h0 : s.sel = 0) (hy : s.y = 0) :
    scrollTop s = 0 := by
  unfold scrollTop U64
  rw [h0, hy]

/-! ### Claim C3 — the viewport invariant fails on the code -/

/-- A single regular-file entry named `a`. -/
def bugEnt : DirElement := ⟨EntType.norm, [97], false⟩

/-- A filesystem that always lists exactly `bugEnt`. -/
def bugFetch : List Nat → Bool → List DirElement := fun _ _ => [bugEnt]

/-- The state reached on a height-10 terminal by starting in a
one-entry directory and pressing `G`: the code sets `y = row - 3 = 7`
while `sel = 0`. -/
def bugState : FullState := ⟨[slash], false, 0, 7, [bugEnt]⟩

/-- Claim C3 is violated by the code: `bugState` is reachable (initial
fetch of a one-entry directory, then key `G` on a height-10 terminal),
its snapshot is non-empty, yet the `size_t` scroll offset `sel - y`
wraps to `2 ^ 64 - 7`, so `scroll_top ≤ selection_index` fails — as an
integer the offset is negative — and the redraw at that offset draws
zero entry rows even though the snapshot has one entry.  The slip is
`G` (and similarly the fast path of `g`) assigning `y = row - 3`
without bounding it by `sel`, which the redraw-time clamping does not
repair (`empty_space` evaluates to `-1` here). -/
theorem C3_invariant_violation :
    Reachable 10 [slash] bugState ∧
    bugState.ents.length ≠ 0 ∧
    ¬ (scrollTop bugState ≤ bugState.sel) ∧
    scrollTopZ bugState < 0 ∧
    redrawBody bugState.ents bugState.sel (scrollTop bugState) 10 =
      RedrawBody.rows [] := by
  refine ⟨?_, by decide, by decide, by decide, ?_⟩
  · have h0 : Reachable 10 [slash] (doFetch 10 bugFetch [slash] false) :=
      Reachable.init bugFetch
    have h1 := Reachable.next h0 ⟨bugFetch, true⟩ Key.keyCapG
    have he : step 10 ⟨bugFetch, true⟩ Key.keyCapG
        (doFetch 10 bugFetch [slash] false) = bugState := by decide
    rwa [he] at h1
  · unfold redrawBody
    rw [if_neg (by decide)]
    rw [List.drop_eq_nil_of_le (by norm_num [bugState, bugEnt, scrollTop, U64])]
    rfl

/-! ### Claim C5 — `G` bottom-aligns a long listing -/

/-- Claim C5: for a terminal of height `H` and a snapshot with `N`
entries where `N > H - 3`, pressing `G` sets `selection_index` to
`N - 1` and the scroll offset to `N - visible_rows` (bottom-aligned,
with `visible_rows = H - 2` drawable entry rows), and the offset is
never negative. -/
theorem C5_capG_bottom_aligns (H : Nat) (env : Env) (s : FullState)
    (h4 : 4 ≤ H) (hn : scrollSize H < s.ents.length) (hb : s.ents.length < U64) :
    (step H env Key.keyCapG s).sel = s.ents.length - 1 ∧
    scrollTop (step H env Key.keyCapG s) = s.ents.length - visibleRows H ∧
    0 ≤ scrollTopZ (step H env Key.keyCapG s) := by
  have hne : s.ents.length ≠ 0 := by
    unfold scrollSize at hn
    omega
  have hstep : step H env Key.keyCapG s =
      { s with sel := s.ents.length - 1, y := scrollSize H } := by
    simp only [step]
    rw [if_neg hne]
  rw [hstep]
  unfold scrollTop scrollTopZ scrollSize visibleRows U64
  unfold scrollSize at hn
  unfold U64 at hb
  refine ⟨rfl, ?_, ?_⟩
  · simp only
    omega
  · simp only
    omega

/-- Concrete witness for C5: height 10, nine entries. -/
def c5ents : List DirElement :=
  (List.range 9).map (fun i => ⟨EntType.norm, [100 + i], false⟩)

/-- The state for the C5 witness. -/
def c5state : FullState := ⟨[slash], false, 0, 0, c5ents⟩

theorem C5_capG_bottom_aligns_witness :
    (step 10 ⟨bugFetch, true⟩ Key.keyCapG c5state).sel = c5state.ents.length - 1 ∧
    scrollTop (step 10 ⟨bugFetch, true⟩ Key.keyCapG c5state) =
      c5state.ents.length - visibleRows 10 ∧
    0 ≤ scrollTopZ (step 10 ⟨bugFetch, true⟩ Key.keyCapG c5state) :=
  C5_capG_bottom_aligns 10 ⟨bugFetch, true⟩ c5state (by decide) (by decide) (by decide)

/-! ### Claim C9 — an empty snapshot inhibits all listing keys -/

/-- Claim C9: when the current snapshot is empty, the renderer shows the
reverse-video empty-directory notice instead of entry rows, and each of
the keys `j k l g G m x` leaves the navigation state — path, selection,
scroll, hidden flag and mark set — entirely unchanged. -/
theorem C9_empty_snapshot_noop (H : Nat) (env : Env) (s : FullState)
    (hs : s.ents = []) (k : Key)
    (hk : k = Key.keyJ ∨ k = Key.keyK ∨ k = Key.keyL ∨ k = Key.keyLowG ∨
          k = Key.keyCapG ∨ k = Key.keyM ∨ k = Key.keyX) :
    step H env k s = s ∧
    redrawBody s.ents s.sel (scrollTop s) H = RedrawBody.emptyNotice := by
  have hlen : s.ents.length = 0 := by rw [hs]; rfl
  constructor
  · rcases hk with h | h | h | h | h | h | h <;> subst h <;>
      simp [step, hlen]
  · unfold redrawBody
    rw [if_pos hlen]

/-- Concrete witness for C9: marking (`m`) in an empty directory. -/
def c9state : FullState := ⟨[slash], false, 0, 0, []⟩

theorem C9_empty_snapshot_noop_witness :
    step 10 ⟨bugFetch, true⟩ Key.keyM c9state = c9state ∧
    redrawBody c9state.ents c9state.sel (scrollTop c9state) 10 =
      RedrawBody.emptyNotice :=
  C9_empty_snapshot_noop 10 ⟨bugFetch, true⟩ c9state rfl Key.keyM
    (Or.inr (Or.inr (Or.inr (Or.inr (Or.inr (Or.inl rfl))))))

/-! ### Claim C10 — the parent of the root is the root -/

/-- Claim C10: pressing `h` when `current_path` is already the root `/`
leaves `current_path` equal to `/` (libc `dirname` maps `/` to `/`),
and the key still performs a refetch of the root directory (the
resulting state is exactly a fresh fetch of `/`); repeated `h` presses
therefore never move `current_path` past the root. -/
theorem C10_h_at_root (H : Nat) (env : Env) (s : FullState)
    (hp : s.path = [slash]) :
    step H env Key.keyH s = doFetch H env.fetchRes [slash] s.hidden ∧
    ∀ k : Nat, ((step H env Key.keyH)^[k] s).path = [slash] := by
  have hd : dirname [slash] = [slash] := by decide
  constructor
  · show doFetch H env.fetchRes (dirname s.path) s.hidden = _
    rw [hp, hd]
  · intro k
    induction k with
    | zero => simpa using hp
    | succ m ih =>
      rw [Function.iterate_succ_apply']
      show (doFetch H env.fetchRes
        (dirname ((step H env Key.keyH)^[m] s).path)
        ((step H env Key.keyH)^[m] s).hidden).path = [slash]
      rw [ih, hd, doFetch_path]

theorem C10_h_at_root_witness :
    ((step 10 ⟨bugFetch, true⟩ Key.keyH)^[3] c9state).path = [slash] :=
  (C10_h_at_root 10 ⟨bugFetch, true⟩ c9state rfl).2 3

/-! ### Claim C6 — `l` then `h` round-trips the path -/

/-- Claim C6: for every (canonical absolute) `current_path` and every
selected directory-like entry with a well-formed name, pressing `l`
(enter the subdirectory) followed by `h` (go to parent) restores
`current_path` to its original value, while `selection_index` and the
scroll offset are reset to 0 rather than restored. -/
theorem C6_l_then_h_roundtrip (H : Nat) (env1 env2 : Env) (s : FullState)
    (e : DirElement) (hget : s.ents[s.sel]? = some e)
    (hdir : isDirLikeType e.type = true)
    (hp : CanonPath s.path) (hnm : ValidName e.name) :
    (step H env2 Key.keyH (step H env1 Key.keyL s)).path = s.path ∧
    (step H env2 Key.keyH (step H env1 Key.keyL s)).sel = 0 ∧
    (step H env2 Key.keyH (step H env1 Key.keyL s)).y = 0 ∧
    scrollTop (step H env2 Key.keyH (step H env1 Key.keyL s)) = 0 := by
  have hlt : s.sel < s.ents.length := (List.getElem?_eq_some_iff.mp hget).1
  have hne : s.ents.length ≠ 0 := by omega
  have hstep1 : step H env1 Key.keyL s =
      doFetch H env1.fetchRes (lPath s.path e.name) s.hidden := by
    simp only [step]
    rw [if_neg hne, hget]
    simp only [hdir, if_true]
  have hstep2 : step H env2 Key.keyH (step H env1 Key.keyL s) =
      doFetch H env2.fetchRes
        (dirname (step H env1 Key.keyL s).path)
        (step H env1 Key.keyL s).hidden := rfl
  rw [hstep2, hstep1]
  simp only [doFetch_path, doFetch_hidden, doFetch_sel, doFetch_y]
  refine ⟨dirname_lPath s.path e.name hp hnm, trivial, trivial, ?_⟩
  exact scrollTop_of_zero _ (doFetch_sel _ _ _ _) (doFetch_y _ _ _ _)

/-- Concrete witness for C6: entering the directory `d` from `/` and
going back. -/
def c6ent : DirElement := ⟨EntType.dir, [100], false⟩

/-- One-entry state at the root for the C6 witness. -/
def c6state : FullState := ⟨[slash], false, 0, 0, [c6ent]⟩

theorem C6_l_then_h_roundtrip_witness :
    (step 10 ⟨bugFetch, true⟩ Key.keyH
      (step 10 ⟨bugFetch, true⟩ Key.keyL c6state)).path = c6state.path ∧
    (step 10 ⟨bugFetch, true⟩ Key.keyH
      (step 10 ⟨bugFetch, true⟩ Key.keyL c6state)).sel = 0 ∧
    (step 10 ⟨bugFetch, true⟩ Key.keyH
      (step 10 ⟨bugFetch, true⟩ Key.keyL c6state)).y = 0 ∧
    scrollTop (step 10 ⟨bugFetch, true⟩ Key.keyH
      (step 10 ⟨bugFetch, true⟩ Key.keyL c6state)) = 0 :=
  C6_l_then_h_roundtrip 10 ⟨bugFetch, true⟩ ⟨bugFetch, true⟩ c6state c6ent
    (by decide) (by decide) (Or.inl rfl) ⟨by decide, by decide⟩

/-! ### Claim C4 — what the `x` key deletes -/

/-- The two filesystem operations the `x` handler can issue per marked
entry (filet.c, lines 718-732): the `nftw(..., delete_file, ...)`
recursive removal, or a plain `unlinkat(fd, name, 0)` (the
`AT_REMOVEDIR` flag is dead code there, since that branch requires
`type != TYPE_DIR`). -/
inductive DelAction
  | recursiveRemove
  | unlink
deriving DecidableEq

/-- The operation the code chooses for one marked entry: recursive
removal exactly for `TYPE_DIR`, plain unlink for everything else —
including `TYPE_SYML_TO_DIR`. -/
def codeDelAction (e : DirElement) : DelAction :=
  if e.type = EntType.dir then DelAction.recursiveRemove else DelAction.unlink

/-- The operation the specification's words prescribe: recursive
removal for every directory-like entry (`Directory` or
`SymlinkToDirectory`). -/
def specDelAction (e : DirElement) : DelAction :=
  if isDirLikeType e.type then DelAction.recursiveRemove else DelAction.unlink

/-- The deletions attempted by the `x` loop, in entry order: one
operation per marked entry, none for unmarked entries.  The loop
ignores the return values of `nftw` / `unlinkat`, so the attempted
operations do not depend on earlier outcomes (it continues past
individual failures by construction). -/
def xActions (ents : List DirElement) : List (List Nat × DelAction) :=
  ents.filterMap
    (fun e => if e.is_selected then some (e.name, codeDelAction e) else none)

/-- The whole `x` handler (filet.c, lines 713-738): if `open(path, 0)`
fails it `continue`s with no deletions and no refetch; otherwise it
attempts `xActions` and sets `fetch_dir` inside the loop body, i.e.
whenever at least one entry exists. -/
def xStep (openOk : Bool) (ents : List DirElement) :
    List (List Nat × DelAction) × Bool :=
  if openOk then (xActions ents, !ents.isEmpty) else ([], false)

/-- Counterexample to claim C4 as stated: a marked entry of kind
`SymlinkToDirectory` is directory-like, yet the code merely unlinks the
symlink itself instead of removing recursively as the claim (and the
specification's deletion rule) prescribes. -/
theorem C4_dirlike_counterexample :
    isDirLikeType EntType.symlToDir = true ∧
    xActions [⟨EntType.symlToDir, [115], true⟩] = [([115], DelAction.unlink)] ∧
    specDelAction ⟨EntType.symlToDir, [115], true⟩ = DelAction.recursiveRemove ∧
    DelAction.unlink ≠ DelAction.recursiveRemove := by
  decide

/-- Claim C4 as amended: when the snapshot is non-empty, `x` (with the
directory open succeeding) attempts, for every marked entry, a
recursive removal if its kind is `Directory` and a plain unlink
otherwise (including symlinks to directories); it attempts nothing for
unmarked entries; marking nothing deletes nothing and is not an error;
and a refetch follows. -/
theorem C4_x_deletes_marked (ents : List DirElement) :
    (∀ e ∈ ents, e.is_selected = true →
      (e.name, codeDelAction e) ∈ (xStep true ents).1) ∧
    (∀ nm a, (nm, a) ∈ (xStep true ents).1 →
      ∃ e ∈ ents, e.is_selected = true ∧ nm = e.name ∧ a = codeDelAction e) ∧
    ((∀ e ∈ ents, e.is_selected = false) → (xStep true ents).1 = []) ∧
    (ents ≠ [] → (xStep true ents).2 = true) := by
  refine ⟨?_, ?_, ?_, ?_⟩
  · intro e he hsel
    simp only [xStep, if_true, xActions, List.mem_filterMap]
    exact ⟨e, he, by rw [hsel]; rfl⟩
  · intro nm a h
    simp only [xStep, if_true, xActions, List.mem_filterMap] at h
    obtain ⟨e, he, hsome⟩ := h
    by_cases hsel : e.is_selected = true
    · rw [hsel] at hsome
      simp only [if_true, Option.some.injEq, Prod.mk.injEq] at hsome
      exact ⟨e, he, hsel, hsome.1.symm, hsome.2.symm⟩
    · simp only [Bool.not_eq_true] at hsel
      rw [hsel] at hsome
      simp at hsome
  · intro h
    simp only [xStep, if_true, xActions, List.filterMap_eq_nil_iff]
    intro e he
    rw [h e he]
    rfl
  · intro h
    simp only [xStep, if_true]
    simpa using h

/-- Concrete witness for the amended C4: one marked directory and one
unmarked regular file. -/
def c4ents : List DirElement :=
  [⟨EntType.dir, [97], true⟩, ⟨EntType.norm, [98], false⟩]

theorem C4_x_deletes_marked_witness :
    ([97], DelAction.recursiveRemove) ∈ (xStep true c4ents).1 ∧
    (xStep true c4ents).2 = true := by
  constructor
  · exact (C4_x_deletes_marked c4ents).1 ⟨EntType.dir, [97], true⟩
      (by decide) rfl
  · exact (C4_x_deletes_marked c4ents).2.2.2 (by decide)

end Filet
